import Mathlib

/-!
Shallow embedding of `src/weather_chart.py` (repository
`erondpowell/inferential-statistics`).

Conventions of the embedding:
* Python/numpy floating-point numbers are idealised as exact rationals.
  Where the program can produce the non-real IEEE values `inf`, `-inf`
  or `nan` (numpy division by zero, `float('inf')`, ...), values live in
  the sum type `PyVal` which tags the finite rationals and the three
  special values.
* Fallible Python code (raised exceptions) is embedded with
  `Except`/`Option`.  `PyErr` names the Python exception classes the
  script itself can raise; `ClimErr` names the outcomes of the four
  `assert` statements of the `Climate` lookups (the spec's
  `UnknownCityError`/`UnknownYearError`/`UnknownMonthError`/
  `UnknownDayError` taxonomy) together with the `KeyError` that
  `get_yearly_temp` can raise.
* Python `dict`s are embedded as functions to `Option`; no claim
  depends on dict iteration order.
-/

/-- A Python/numpy float value: a finite rational or one of the IEEE
special values `inf`, `-inf`, `nan`. -/
inductive PyVal where
  | finite (q : ℚ)
  | inf
  | ninf
  | nan
deriving DecidableEq

/-- Python exception classes that the script can raise. -/
inductive PyErr where
  | attributeError
  | valueError
  | zeroDivisionError
  | indexError
  | nameError
deriving DecidableEq

/-- Decidable equality of `Except` results, so that concrete runs of
the embedded functions can be checked by `decide`. -/
instance {ε α : Type} [DecidableEq ε] [DecidableEq α] :
    DecidableEq (Except ε α) := fun x y =>
  match x, y with
  | .ok a, .ok b =>
      if h : a = b then isTrue (by rw [h])
      else isFalse (by intro hc; injection hc; contradiction)
  | .error e, .error f =>
      if h : e = f then isTrue (by rw [h])
      else isFalse (by intro hc; injection hc; contradiction)
  | .ok _, .error _ => isFalse (by intro hc; cases hc)
  | .error _, .ok _ => isFalse (by intro hc; cases hc)

/-- The mean of a list of rationals (`sum / len`); only used on
non-empty lists. -/
def listMean (l : List ℚ) : ℚ := l.sum / (l.length : ℚ)

/-- Population variance, the mathematical content of `np.var(y)` for a
non-empty series, and also the spec's "mean-centered sum of squares
divided by `len(y)`" (spec section 4.3). -/
def pvar (l : List ℚ) : ℚ :=
  ((l.map (fun v => (v - listMean l) ^ 2)).sum) / (l.length : ℚ)

/-- Embeds `np.var(y)` (line 151): population variance of a non-empty
series; on an empty array numpy emits a warning and returns `nan`. -/
def npVar (l : List ℚ) : PyVal :=
  if l = [] then .nan else .finite (pvar l)

/-- Embeds the numpy division `variance / np.var(y)` (line 151) for a
finite real numerator: numpy signals no exception on a zero denominator
and yields `inf`/`-inf`/`nan` per IEEE semantics. -/
def npDivF (a : ℚ) : PyVal → PyVal
  | .nan => .nan
  | .inf => .finite 0
  | .ninf => .finite 0
  | .finite v =>
      if v = 0 then (if 0 < a then .inf else if a < 0 then .ninf else .nan)
      else .finite (a / v)

/-- Embeds `1 - r` (line 151) on a Python/numpy float. -/
def pySub1 : PyVal → PyVal
  | .finite q => .finite (1 - q)
  | .inf => .ninf
  | .ninf => .inf
  | .nan => .nan

/-- Embeds the loop of `r_squared` (lines 147-149):
`for i in range(len(estimated)): sum_of_squares += (estimated[i] - y[i])**2`.
Indexing `y[i]` past the end of `y` raises `IndexError`. -/
def sse : List ℚ → List ℚ → Except PyErr ℚ
  | [], _ => .ok 0
  | _ :: _, [] => .error .indexError
  | e :: es, yv :: ys => do
      let s ← sse es ys
      pure (s + (e - yv) ^ 2)

/-- Embeds `r_squared(y, estimated)` (lines 138-151): the squared-error
loop, then `variance = sum_of_squares / len(estimated)` (a Python
division, raising `ZeroDivisionError` on an empty `estimated`), then
`1 - (variance / np.var(y))` under numpy division semantics. -/
def r_squared (y estimated : List ℚ) : Except PyErr PyVal := do
  let s ← sse estimated y
  if estimated.length = 0 then
    .error .zeroDivisionError
  else
    .ok (pySub1 (npDivF (s / (estimated.length : ℚ)) (npVar y)))

/-- Follows the spec's words (section 4.3, refinement side of claim C1):
`SSE = sum((estimated_y[i] - y[i])^2)` over all i. -/
def sseSpec (y estimated : List ℚ) : ℚ :=
  ((estimated.zip y).map (fun p => (p.1 - p.2) ^ 2)).sum

/-- Follows the spec's words (section 4.3, refinement side of claim C1):
`R2 = 1 - (SSE / len(y)) / variance(y)`, computed via the two-division
form. -/
def r2Spec (y estimated : List ℚ) : ℚ :=
  1 - (sseSpec y estimated / (y.length : ℚ)) / pvar y

/-- Horner evaluation of a coefficient list, highest degree first: the
mathematics of `pylab.polyval(model, xi)` at one point. -/
def horner (model : List ℚ) (t : ℚ) : ℚ :=
  model.foldl (fun acc c => acc * t + c) 0

/-- Embeds `pylab.polyval(model, x)` (line 178) on an array of points. -/
def polyval (model : List ℚ) (x : List ℚ) : List ℚ :=
  x.map (horner model)

/-- Modelled from the documented mathematics of the external library
call `pylab.polyfit(x, y, 1)` (line 132): the unique least-squares
degree-1 fit via the normal equations, coefficients highest degree
first, idealised over exact rationals. -/
def polyfit1 (x y : List ℚ) : List ℚ :=
  let n : ℚ := (x.length : ℚ)
  let sx := x.sum
  let sy := y.sum
  let sxy := ((x.zip y).map (fun p => p.1 * p.2)).sum
  let sxx := ((x.map (fun v => v * v)).sum)
  let a := (n * sxy - sx * sy) / (n * sxx - sx * sx)
  let b := (sy - a * sx) / n
  [a, b]

/-- Embeds `generate_models(x, y, [1])` (lines 115-135) for the
degree list `[1]`, the only request the script makes. -/
def generate_models1 (x y : List ℚ) : List (List ℚ) :=
  [polyfit1 x y]

/-- The most recent length-2 model of a list, starting from a carried
accumulator; tracks the provenance of the `r_sqr` variable across the
loop of `evaluate_models_on_training`. -/
def lastLinAux (acc : Option (List ℚ)) : List (List ℚ) → Option (List ℚ)
  | [] => acc
  | m :: ms => lastLinAux (if m.length = 2 then some m else acc) ms

/-- Embeds the loop body of `evaluate_models_on_training`
(lines 176-186): per model, `estimates = pylab.polyval(model, x)`;
`r_sqr` is reassigned only when `len(model) == 2`; the call
`str(r_sqr)` in the title raises `NameError` when `r_sqr` was never
assigned.  The carried `r` is the current binding of the local
variable `r_sqr` (`none` = unbound).  Per model the pair of the
plotted estimates and the R-squared value placed in the title is
returned. -/
def evalLoop (x y : List ℚ) :
    List (List ℚ) → Option PyVal → Except PyErr (List (List ℚ × PyVal))
  | [], _ => .ok []
  | m :: ms, r => do
      let est := polyval m x
      let r' ← if m.length = 2 then do
                  let v ← r_squared y est
                  pure (some v)
                else pure r
      match r' with
      | none => Except.error .nameError
      | some rv => do
          let rest ← evalLoop x y ms r'
          pure ((est, rv) :: rest)

/-- Embeds `evaluate_models_on_training(x, y, models)` (lines 154-188):
the loop starting with the local `r_sqr` unbound.  The plotting side
effects are modelled by returning, per model, the plotted estimates and
the R-squared value shown in the title. -/
def evaluate_models_on_training (x y : List ℚ) (models : List (List ℚ)) :
    Except PyErr (List (List ℚ × PyVal)) :=
  evalLoop x y models none

/-- The innermost `dict` level of `Climate.rawdata`: day -> temperature. -/
abbrev DayMap := Nat → Option PyVal

/-- The month -> day-map level of `Climate.rawdata`. -/
abbrev MonthMap := Nat → Option DayMap

/-- The year -> month-map level of `Climate.rawdata`. -/
abbrev YearMap := Nat → Option MonthMap

/-- The whole `Climate.rawdata` nested mapping:
city -> year -> month -> day -> temperature. -/
abbrev Store := String → Option YearMap

/-- A single key update of one `dict` level (`d[k] = v`). -/
def updFn {κ α : Type} [DecidableEq κ] (f : κ → Option α) (k : κ) (v : α) :
    κ → Option α :=
  fun k' => if k' = k then some v else f k'

/-- The mapping held at a key, or the empty `{}` created on first use
(`if k not in d: d[k] = {}`). -/
def orEmpty {κ α : Type} (o : Option (κ → Option α)) : κ → Option α :=
  o.getD (fun _ => none)

/-- An ingested observation, the record after the date and temperature
fields have been parsed (spec section 3, `Observation`). -/
structure PRec where
  city : String
  year : Nat
  month : Nat
  day : Nat
  temp : PyVal
deriving DecidableEq

/-- Embeds lines 62-68 of `Climate.__init__`: create the missing
intermediate `dict` levels for the record's city, year and month, then
assign `rawdata[city][year][month][day] = temperature`. -/
def insertRecord (s : Store) (r : PRec) : Store :=
  updFn s r.city
    (updFn (orEmpty (s r.city)) r.year
      (updFn (orEmpty (orEmpty (s r.city) r.year)) r.month
        (updFn (orEmpty (orEmpty (orEmpty (s r.city) r.year) r.month))
          r.day r.temp)))

/-- The `self.rawdata = {}` starting point (line 47). -/
def emptyStore : Store := fun _ => none

/-- The store built by inserting a list of already-parsed observations
in order (the insertion loop of `Climate.__init__`). -/
def buildStore (recs : List PRec) : Store :=
  recs.foldl insertRecord emptyStore

/-- Direct four-level lookup in the nested mapping. -/
def rawLookup (s : Store) (c : String) (y m d : Nat) : Option PyVal :=
  (s c).bind fun ym => (ym y).bind fun mm => (mm m).bind fun dm => dm d

/-- The temperature of the last record of the list carrying the given
(city, year, month, day) key, starting from a carried accumulator. -/
def lastWriteAux (c : String) (y m d : Nat) (acc : Option PyVal) :
    List PRec → Option PyVal
  | [] => acc
  | r :: rs =>
      lastWriteAux c y m d
        (if r.city = c ∧ r.year = y ∧ r.month = m ∧ r.day = d
          then some r.temp else acc) rs

/-- The temperature of the last record of the list carrying the given
(city, year, month, day) key, if any. -/
def lastWrite (recs : List PRec) (c : String) (y m d : Nat) : Option PyVal :=
  lastWriteAux c y m d none recs

/-- Failure outcomes of the `Climate` lookup methods.  The first four
constructors name, per the spec's error taxonomy, the four `assert`
statements ("provided city/year/month/day is not available"); `keyError`
is the Python `KeyError` raised by evaluating
`self.rawdata[city][year][month]` on an absent month key (line 89). -/
inductive ClimErr where
  | unknownCity
  | unknownYear
  | unknownMonth
  | unknownDay
  | keyError (month : Nat)
deriving DecidableEq

/-- Embeds `Climate.get_daily_temp(city, month, day, year)`
(lines 93-112): the four `assert` statements in order, then the
four-level read. -/
def get_daily_temp (s : Store) (city : String) (month day year : Nat) :
    Except ClimErr PyVal :=
  match s city with
  | none => .error .unknownCity
  | some ym =>
    match ym year with
    | none => .error .unknownYear
    | some mm =>
      match mm month with
      | none => .error .unknownMonth
      | some dm =>
        match dm day with
        | none => .error .unknownDay
        | some t => .ok t

/-- The month numbers `range(1, 13)` iterated by `get_yearly_temp`. -/
def monthsList : List Nat := (List.range 12).map (· + 1)

/-- The day numbers `range(1, 32)` iterated by `get_yearly_temp`. -/
def daysList : List Nat := (List.range 31).map (· + 1)

/-- The inner day loop of `get_yearly_temp` (lines 88-90) over one
month's day map: the temperatures of the recorded days, day ascending. -/
def monthTemps (dm : DayMap) : List PyVal :=
  daysList.filterMap dm

/-- The month loop of `get_yearly_temp` (lines 87-90): for each month in
order, evaluating `self.rawdata[city][year][month]` raises `KeyError`
when the month key is absent, else the recorded days' temperatures are
appended. -/
def collectMonths (mm : MonthMap) : List Nat → Except ClimErr (List PyVal)
  | [] => .ok []
  | m :: ms =>
    match mm m with
    | none => .error (.keyError m)
    | some dm => do
        let rest ← collectMonths mm ms
        pure (monthTemps dm ++ rest)

/-- Embeds `Climate.get_yearly_temp(city, year)` (lines 72-91): the two
`assert` statements, then the month/day collection loop. -/
def get_yearly_temp (s : Store) (city : String) (year : Nat) :
    Except ClimErr (List PyVal) :=
  match s city with
  | none => .error .unknownCity
  | some ym =>
    match ym year with
    | none => .error .unknownYear
    | some mm => collectMonths mm monthsList

/-- The recorded (month, day) pairs of a city/year within a given month
list, in calendar order. -/
def recordedDaysIn (mm : MonthMap) (ms : List Nat) : List (Nat × Nat) :=
  ms.flatMap fun m =>
    match mm m with
    | none => []
    | some dm => (daysList.filter fun d => (dm d).isSome).map (fun d => (m, d))

/-- The recorded (month, day) pairs of a city/year (months 1-12, days
1-31, the `Observation` field ranges of spec section 3), in calendar
order: month ascending, then day ascending. -/
def recordedDays (mm : MonthMap) : List (Nat × Nat) :=
  recordedDaysIn mm monthsList

/-- Strict calendar order on (month, day) pairs. -/
def calLt (p q : Nat × Nat) : Prop :=
  p.1 < q.1 ∨ (p.1 = q.1 ∧ p.2 < q.2)

/-- Whether a city key is present in the store. -/
def cityPresent (s : Store) (c : String) : Bool :=
  (s c).isSome

/-- Whether a year key is present under a city. -/
def yearPresent (s : Store) (c : String) (y : Nat) : Bool :=
  match s c with
  | none => false
  | some ym => (ym y).isSome

/-- Whether a month key is present under a city and year. -/
def monthPresent (s : Store) (c : String) (y m : Nat) : Bool :=
  match s c with
  | none => false
  | some ym =>
    match ym y with
    | none => false
    | some mm => (mm m).isSome

/-- Whether a day key is present under a city, year and month. -/
def dayPresent (s : Store) (c : String) (y m d : Nat) : Bool :=
  match s c with
  | none => false
  | some ym =>
    match ym y with
    | none => false
    | some mm =>
      match mm m with
      | none => false
      | some dm => (dm d).isSome

/-- A raw input record: the `DATE`, `CITY` and `TEMP` fields of one
csv line, already split into fields (spec section 6 excludes the csv
splitting itself from the core). -/
structure RawRec where
  date : List Char
  city : String
  temp : List Char
deriving DecidableEq

/-- The numeric value of a list of decimal digit characters
(`int(...)` on a regex group of digits). -/
def digitsToNat (l : List Char) : Nat :=
  l.foldl (fun acc c => 10 * acc + (c.toNat - 48)) 0

/-- Embeds the date decomposition of lines 54-58:
`re.match` of four, two and two digit groups against the start of the
`DATE` field (trailing characters allowed), each group read with
`int`.  A failed match leaves `date = None`, so the subsequent
`date.group(1)` raises `AttributeError`. -/
def reDate : List Char → Option (Nat × Nat × Nat)
  | c1 :: c2 :: c3 :: c4 :: c5 :: c6 :: c7 :: c8 :: _ =>
      if ([c1, c2, c3, c4, c5, c6, c7, c8].all Char.isDigit) then
        some (digitsToNat [c1, c2, c3, c4],
              digitsToNat [c5, c6],
              digitsToNat [c7, c8])
      else none
  | _ => none

/-- ASCII whitespace, as stripped by Python `float` around its input. -/
def isWs (c : Char) : Bool :=
  c = ' ' || c = '\t' || c = '\n' || c = '\r'

/-- Lower-case an ASCII letter (Python `float` accepts `inf`, `Infinity`,
`NaN`, ... case-insensitively). -/
def lowerChar (c : Char) : Char :=
  if 'A' ≤ c && c ≤ 'Z' then Char.ofNat (c.toNat + 32) else c

/-- Strip leading and trailing ASCII whitespace. -/
def stripWs (cs : List Char) : List Char :=
  ((cs.dropWhile isWs).reverse.dropWhile isWs).reverse

/-- The value of a fractional digit string: `digits / 10 ^ len`. -/
def fracVal (fp : List Char) : ℚ :=
  (digitsToNat fp : ℚ) / (10 : ℚ) ^ fp.length

/-- Parse the exponent part after `e`/`E`: an optional sign then a
non-empty digit string. -/
def parseExp : List Char → Option Int
  | [] => none
  | c :: rest =>
      let p : Int × List Char :=
        if c = '-' then (-1, rest)
        else if c = '+' then (1, rest)
        else (1, c :: rest)
      if p.2 ≠ [] ∧ p.2.all Char.isDigit then
        some (p.1 * (digitsToNat p.2 : Int))
      else none

/-- Parse an unsigned decimal number of the Python `float` grammar:
`digits`, `digits . digits?`, `. digits`, optionally followed by an
exponent; the whole input must be consumed and the mantissa must hold
at least one digit. -/
def parseNum (cs : List Char) : Option ℚ :=
  let ip := cs.takeWhile Char.isDigit
  let r1 := cs.dropWhile Char.isDigit
  let q : List Char × List Char :=
    match r1 with
    | '.' :: t => (t.takeWhile Char.isDigit, t.dropWhile Char.isDigit)
    | _ => ([], r1)
  if ip = [] ∧ q.1 = [] then none
  else
    let mant : ℚ := (digitsToNat ip : ℚ) + fracVal q.1
    match q.2 with
    | [] => some mant
    | e :: t =>
        if e = 'e' ∨ e = 'E' then
          (parseExp t).map (fun ex => mant * (10 : ℚ) ^ ex)
        else none

/-- Models Python `float(...)` applied to the `TEMP` field (line 61) on
the grammar `ws* sign? (inf | infinity | nan | number) ws*`
(case-insensitive); `none` is a raised `ValueError`.  Note `inf`, `-inf`
and `nan` are accepted and give non-finite values.  Digit-separator
underscores and non-ASCII digits are not modelled. -/
def pyFloat (cs : List Char) : Option PyVal :=
  let s := stripWs cs
  match s with
  | [] => none
  | c :: rest =>
      let p : Bool × List Char :=
        if c = '-' then (true, rest)
        else if c = '+' then (false, rest)
        else (false, s)
      let lb := p.2.map lowerChar
      if lb = "inf".toList ∨ lb = "infinity".toList then
        some (if p.1 then .ninf else .inf)
      else if lb = "nan".toList then some .nan
      else (parseNum p.2).map (fun q => PyVal.finite (if p.1 then -q else q))

/-- Embeds the per-line field handling of lines 54-61: decompose the
date (a failed match raises `AttributeError` via `date.group`), read the
city, parse the temperature (`float` raises `ValueError` on failure). -/
def parseRecord (r : RawRec) : Except PyErr PRec :=
  match reDate r.date with
  | none => .error .attributeError
  | some (y, m, d) =>
    match pyFloat r.temp with
    | none => .error .valueError
    | some t => .ok ⟨r.city, y, m, d, t⟩

/-- The line loop of `Climate.__init__` from a given current store:
parse each record in order and insert it; the first raised exception
aborts construction. -/
def initAux (s : Store) : List RawRec → Except PyErr Store
  | [] => .ok s
  | r :: rs =>
    match parseRecord r with
    | .error e => .error e
    | .ok p => initAux (insertRecord s p) rs

/-- Embeds `Climate.__init__` (lines 39-70) on the pre-split records of
the csv file: build the nested mapping, aborting on the first record
whose date or temperature field fails to parse. -/
def Climate.init (recs : List RawRec) : Except PyErr Store :=
  initAux emptyStore recs

/-! Helper lemmas. -/

/-- The squared-error loop succeeds and computes the spec's SSE whenever
`y` is at least as long as `estimated`. -/
theorem sse_eq_ok : ∀ (est y : List ℚ), est.length ≤ y.length →
    sse est y = .ok (sseSpec y est)
  | [], _, _ => rfl
  | _ :: _, [], h => by simp at h
  | e :: es, yv :: ys, h => by
      have ih := sse_eq_ok es ys (by simpa using h)
      simp [sse, sseSpec, ih, bind, Except.bind, pure, Except.pure]
      simp [sseSpec] at *
      ring

/-- C1: for series of equal positive length with nonzero population
variance of `y`, `r_squared(y, estimated_y)` returns the finite value
`1 - (SSE / n) / variance(y)` of the spec's two-division formula, where
`SSE` sums the squared residuals and `variance(y)` is the population
variance. -/
theorem r_squared_two_division_form (y estimated : List ℚ)
    (hlen : y.length = estimated.length) (hpos : 0 < y.length)
    (hvar : pvar y ≠ 0) :
    r_squared y estimated = .ok (.finite (r2Spec y estimated)) := by
  have hne : y ≠ [] := by
    intro h
    subst h
    simp at hpos
  have hsse := sse_eq_ok estimated y (le_of_eq hlen.symm)
  have hlen0 : ¬ estimated.length = 0 := by
    rw [← hlen]
    omega
  simp [r_squared, hsse, bind, Except.bind, hlen0, npVar, hne, npDivF, hvar,
    pySub1, r2Spec, hlen]

/-- Witness for C1 at y = [1,2], estimated = [1,3]. -/
theorem r_squared_two_division_form_witness :
    (([1, 2] : List ℚ).length = ([1, 3] : List ℚ).length ∧
      0 < ([1, 2] : List ℚ).length ∧ pvar [1, 2] ≠ 0) ∧
    r_squared [1, 2] [1, 3] = .ok (.finite (r2Spec [1, 2] [1, 3])) := by
  have hvar : pvar ([1, 2] : List ℚ) ≠ 0 := by
    norm_num [pvar, listMean]
  exact ⟨⟨rfl, by norm_num, hvar⟩,
    r_squared_two_division_form [1, 2] [1, 3] rfl (by norm_num) hvar⟩

/-- C2: the code contains no `EmptySeriesError` check.  On the constant
series y = [5,5,5,5] (population variance zero) `r_squared` silently
returns `-inf` (numpy division by zero), and on empty input it raises
`ZeroDivisionError`, not an `EmptySeriesError`. -/
theorem r_squared_degenerate_inputs_no_emptySeriesError :
    r_squared [5, 5, 5, 5] [6, 6, 6, 6] = .ok .ninf ∧
    r_squared [] [] = .error .zeroDivisionError := by
  constructor
  · simp [r_squared, sse, npVar, pvar, listMean, npDivF, pySub1, bind,
      Except.bind, pure, Except.pure]
    norm_num
  · decide

/-- C3: a month of the queried year with no recorded observation makes
`get_yearly_temp` raise `KeyError` (line 89 indexes the absent month
key), even though the city and the year are both present; the failure is
not one of the two asserted unknown-city/unknown-year outcomes. -/
theorem get_yearly_temp_missing_month_keyError :
    cityPresent (buildStore [⟨"BOSTON", 1961, 1, 10, .finite 39⟩]) "BOSTON"
        = true ∧
    yearPresent (buildStore [⟨"BOSTON", 1961, 1, 10, .finite 39⟩]) "BOSTON" 1961
        = true ∧
    get_yearly_temp (buildStore [⟨"BOSTON", 1961, 1, 10, .finite 39⟩])
        "BOSTON" 1961 = .error (.keyError 2) := by
  decide

/-- C5: `get_daily_temp` checks the key path in priority order city,
year, month, day, failing with the error of the first absent level, and
returns the stored temperature when all four levels are present. -/
theorem get_daily_temp_priority (s : Store) (c : String) (m d y : Nat) :
    (s c = none → get_daily_temp s c m d y = .error .unknownCity) ∧
    (∀ ym, s c = some ym → ym y = none →
      get_daily_temp s c m d y = .error .unknownYear) ∧
    (∀ ym mm, s c = some ym → ym y = some mm → mm m = none →
      get_daily_temp s c m d y = .error .unknownMonth) ∧
    (∀ ym mm dm, s c = some ym → ym y = some mm → mm m = some dm →
      dm d = none → get_daily_temp s c m d y = .error .unknownDay) ∧
    (∀ ym mm dm t, s c = some ym → ym y = some mm → mm m = some dm →
      dm d = some t → get_daily_temp s c m d y = .ok t) := by
  refine ⟨?_, ?_, ?_, ?_, ?_⟩ <;> intros <;> simp_all [get_daily_temp]

/-- Witness for C5: all four levels present in a one-record store. -/
theorem get_daily_temp_priority_witness :
    get_daily_temp (buildStore [⟨"BOSTON", 2000, 1, 2, .finite 5⟩])
      "BOSTON" 1 2 2000 = .ok (.finite 5) :=
  (get_daily_temp_priority (buildStore [⟨"BOSTON", 2000, 1, 2, .finite 5⟩])
      "BOSTON" 1 2 2000).2.2.2.2 _ _ _ _ rfl rfl rfl rfl

/-- C8: there is no `MalformedRecordError`.  A temperature field `inf`
is accepted by `float` and the non-finite value is stored (construction
succeeds); a date that is not 8 digits raises `AttributeError`; an
unparseable temperature raises `ValueError`. -/
theorem climate_init_accepts_infinite_temperature :
    (Climate.init [⟨"20000101".toList, "BOSTON", "inf".toList⟩]).map
        (fun s => get_daily_temp s "BOSTON" 1 1 2000) = .ok (.ok .inf) ∧
    (Climate.init [⟨"2000011".toList, "BOSTON", "5".toList⟩]).map
        (fun s => get_daily_temp s "BOSTON" 1 1 2000)
        = .error .attributeError ∧
    (Climate.init [⟨"20000101".toList, "BOSTON", "5x".toList⟩]).map
        (fun s => get_daily_temp s "BOSTON" 1 1 2000) = .error .valueError := by
  refine ⟨by decide, by decide, by decide⟩

/-- C9: on x = [1,2,3], y = [1,2,3] with degree 1, the fitted model is
the identity line [1, 0], the estimated values equal y exactly, and the
computed R-squared equals 1. -/
theorem linear_fit_identity_r_squared_one :
    generate_models1 [1, 2, 3] [1, 2, 3] = [[1, 0]] ∧
    polyval [1, 0] [1, 2, 3] = [1, 2, 3] ∧
    evaluate_models_on_training [1, 2, 3] [1, 2, 3]
        (generate_models1 [1, 2, 3] [1, 2, 3]) =
      .ok [([1, 2, 3], .finite 1)] := by
  refine ⟨?_, ?_, ?_⟩
  · norm_num [generate_models1, polyfit1]
  · norm_num [polyval, horner]
  · simp [evaluate_models_on_training, evalLoop, generate_models1, polyfit1,
      polyval, horner, r_squared, sse, npVar, pvar, listMean, npDivF, pySub1,
      bind, Except.bind, pure, Except.pure]
    norm_num

/-- Key update lemma: reading the updated key. -/
theorem updFn_self {κ α : Type} [DecidableEq κ] (f : κ → Option α) (k : κ)
    (v : α) : updFn f k v k = some v := by
  simp [updFn]

/-- Key update lemma: reading another key. -/
theorem updFn_other {κ α : Type} [DecidableEq κ] (f : κ → Option α)
    (k k' : κ) (v : α) (h : ¬ k' = k) : updFn f k v k' = f k' := by
  simp [updFn, h]

/-- Accumulator law for `lastWriteAux`: the result is the last matching
record of the list, falling back to the carried accumulator. -/
theorem lastWriteAux_eq_orElse (c : String) (y m d : Nat) :
    ∀ (recs : List PRec) (acc : Option PyVal),
      lastWriteAux c y m d acc recs =
        (lastWrite recs c y m d).orElse (fun _ => acc)
  | [], acc => rfl
  | r :: rs, acc => by
      have h1 := lastWriteAux_eq_orElse c y m d rs
        (if r.city = c ∧ r.year = y ∧ r.month = m ∧ r.day = d
          then some r.temp else acc)
      have h2 := lastWriteAux_eq_orElse c y m d rs
        (if r.city = c ∧ r.year = y ∧ r.month = m ∧ r.day = d
          then some r.temp else none)
      simp only [lastWrite, lastWriteAux] at h1 h2 ⊢
      rw [h1, h2]
      cases lastWriteAux c y m d none rs with
      | none =>
          by_cases hk : r.city = c ∧ r.year = y ∧ r.month = m ∧ r.day = d <;>
            simp [hk, Option.orElse]
      | some v => simp [Option.orElse]

/-- The un-updated three-level fallback path reads the old store. -/
theorem orEmpty_bind_day (s : Store) (cc : String) (yy mo dd : Nat) :
    ((orEmpty (s cc)) yy).bind (fun mm => (mm mo).bind fun dm => dm dd) =
      rawLookup s cc yy mo dd := by
  cases hs : s cc with
  | none => simp [orEmpty, rawLookup, hs]
  | some ym => simp [orEmpty, rawLookup, hs]

/-- The un-updated two-level fallback path reads the old store. -/
theorem orEmpty2_bind_day (s : Store) (cc : String) (yy mo dd : Nat) :
    ((orEmpty ((orEmpty (s cc)) yy)) mo).bind (fun dm => dm dd) =
      rawLookup s cc yy mo dd := by
  cases hs : s cc with
  | none => simp [orEmpty, rawLookup, hs]
  | some ym =>
    cases hy : ym yy with
    | none => simp [orEmpty, rawLookup, hs, hy]
    | some mm => simp [orEmpty, rawLookup, hs, hy]

/-- The un-updated one-level fallback path reads the old store. -/
theorem orEmpty3_day (s : Store) (cc : String) (yy mo dd : Nat) :
    (orEmpty ((orEmpty ((orEmpty (s cc)) yy)) mo)) dd =
      rawLookup s cc yy mo dd := by
  cases hs : s cc with
  | none => simp [orEmpty, rawLookup, hs]
  | some ym =>
    cases hy : ym yy with
    | none => simp [orEmpty, rawLookup, hs, hy]
    | some mm =>
      cases hm : mm mo with
      | none => simp [orEmpty, rawLookup, hs, hy, hm]
      | some dm => simp [orEmpty, rawLookup, hs, hy, hm]

/-- Lookup after a single insertion: the inserted key reads the new
temperature, every other key is unchanged. -/
theorem rawLookup_insert (s : Store) (r : PRec) (c : String) (y m d : Nat) :
    rawLookup (insertRecord s r) c y m d =
      if r.city = c ∧ r.year = y ∧ r.month = m ∧ r.day = d
        then some r.temp else rawLookup s c y m d := by
  by_cases hc : c = r.city
  · subst hc
    simp only [rawLookup, insertRecord, updFn_self, Option.some_bind]
    by_cases hy : y = r.year
    · subst hy
      simp only [updFn_self, Option.some_bind]
      by_cases hm : m = r.month
      · subst hm
        simp only [updFn_self, Option.some_bind]
        by_cases hd : d = r.day
        · subst hd
          simp [updFn_self]
        · rw [updFn_other _ _ _ _ hd,
            if_neg (fun h => hd h.2.2.2.symm), orEmpty3_day]
          rfl
      · rw [updFn_other _ _ _ _ hm,
          if_neg (fun h => hm h.2.2.1.symm), orEmpty2_bind_day]
        rfl
    · rw [updFn_other _ _ _ _ hy,
        if_neg (fun h => hy h.2.1.symm), orEmpty_bind_day]
      rfl
  · simp only [rawLookup, insertRecord]
    rw [updFn_other _ _ _ _ hc, if_neg (fun h => hc h.1.symm)]

/-- Lookup after the insertion fold: the last write to the key wins,
falling back to the starting store. -/
theorem rawLookup_foldl (c : String) (y m d : Nat) :
    ∀ (recs : List PRec) (s : Store),
      rawLookup (List.foldl insertRecord s recs) c y m d =
        (lastWrite recs c y m d).orElse (fun _ => rawLookup s c y m d)
  | [], s => rfl
  | r :: rs, s => by
      have ih := rawLookup_foldl c y m d rs (insertRecord s r)
      simp only [List.foldl_cons] at *
      rw [ih, rawLookup_insert]
      have hw : lastWrite (r :: rs) c y m d =
          (lastWrite rs c y m d).orElse
            (fun _ => if r.city = c ∧ r.year = y ∧ r.month = m ∧ r.day = d
              then some r.temp else none) := by
        simp only [lastWrite, lastWriteAux]
        exact lastWriteAux_eq_orElse c y m d rs _
      rw [hw]
      cases lastWrite rs c y m d with
      | none =>
          by_cases hk : r.city = c ∧ r.year = y ∧ r.month = m ∧ r.day = d <;>
            simp [hk, Option.orElse]
      | some v => simp [Option.orElse]

/-- A successful `get_daily_temp` is exactly a successful four-level
lookup. -/
theorem get_daily_temp_eq_ok_iff (s : Store) (c : String) (m d y : Nat)
    (t : PyVal) :
    get_daily_temp s c m d y = .ok t ↔ rawLookup s c y m d = some t := by
  unfold get_daily_temp rawLookup
  cases s c with
  | none => simp
  | some ym =>
    simp only [Option.some_bind]
    cases ym y with
    | none => simp
    | some mm =>
      simp only [Option.some_bind]
      cases mm m with
      | none => simp
      | some dm =>
        simp only [Option.some_bind]
        cases dm d with
        | none => simp
        | some t' => simp

/-- C7: round-trip of ingestion.  For any sequence of ingested
observations, `get_daily_temp` on the built store returns exactly the
temperature of the last ingested record with that (city, year, month,
day) key; duplicate keys are silently overwritten and never reported as
an error. -/
theorem get_daily_temp_round_trip (recs : List PRec) (c : String)
    (y m d : Nat) (t : PyVal) (h : lastWrite recs c y m d = some t) :
    get_daily_temp (buildStore recs) c m d y = .ok t := by
  rw [get_daily_temp_eq_ok_iff]
  unfold buildStore
  rw [rawLookup_foldl, h]
  rfl

/-- Witness for C7: two records with the same key; the later write
wins. -/
theorem get_daily_temp_round_trip_witness :
    lastWrite [⟨"BOSTON", 2000, 1, 1, .finite 3⟩,
        ⟨"BOSTON", 2000, 1, 1, .finite 7⟩] "BOSTON" 2000 1 1
      = some (.finite 7) ∧
    get_daily_temp (buildStore [⟨"BOSTON", 2000, 1, 1, .finite 3⟩,
        ⟨"BOSTON", 2000, 1, 1, .finite 7⟩]) "BOSTON" 1 1 2000
      = .ok (.finite 7) :=
  ⟨by decide, get_daily_temp_round_trip _ "BOSTON" 2000 1 1 _ (by decide)⟩

/-- Presence of a city after one insertion. -/
theorem cityPresent_insert (s : Store) (p : PRec) (c : String) :
    cityPresent (insertRecord s p) c = true ↔
      p.city = c ∨ cityPresent s c = true := by
  by_cases hc : c = p.city
  · subst hc
    simp [cityPresent, insertRecord, updFn_self]
  · have hc' : ¬ p.city = c := fun h => hc h.symm
    simp only [cityPresent, insertRecord, updFn_other _ _ _ _ hc]
    simp [hc']

/-- Presence of a year under a city after one insertion. -/
theorem yearPresent_insert (s : Store) (p : PRec) (c : String) (y : Nat) :
    yearPresent (insertRecord s p) c y = true ↔
      (p.city = c ∧ p.year = y) ∨ yearPresent s c y = true := by
  by_cases hc : c = p.city
  · subst hc
    simp only [yearPresent, insertRecord, updFn_self]
    by_cases hy : y = p.year
    · subst hy
      simp [updFn_self]
    · have hy' : ¬ p.year = y := fun h => hy h.symm
      rw [updFn_other _ _ _ _ hy]
      cases hs : s p.city with
      | none => simp [orEmpty, hs, hy']
      | some ym => simp [orEmpty, hs, hy']
  · have hc' : ¬ p.city = c := fun h => hc h.symm
    simp only [yearPresent, insertRecord, updFn_other _ _ _ _ hc]
    simp [hc']

/-- Presence of a month under a city and year after one insertion. -/
theorem monthPresent_insert (s : Store) (p : PRec) (c : String) (y m : Nat) :
    monthPresent (insertRecord s p) c y m = true ↔
      (p.city = c ∧ p.year = y ∧ p.month = m) ∨
        monthPresent s c y m = true := by
  by_cases hc : c = p.city
  · subst hc
    simp only [monthPresent, insertRecord, updFn_self]
    by_cases hy : y = p.year
    · subst hy
      simp only [updFn_self]
      by_cases hm : m = p.month
      · subst hm
        simp [updFn_self]
      · have hm' : ¬ p.month = m := fun h => hm h.symm
        rw [updFn_other _ _ _ _ hm]
        cases hs : s p.city with
        | none => simp [orEmpty, hs, hm']
        | some ym =>
          cases hyy : ym p.year with
          | none => simp [orEmpty, hs, hyy, hm']
          | some mm => simp [orEmpty, hs, hyy, hm']
    · have hy' : ¬ p.year = y := fun h => hy h.symm
      rw [updFn_other _ _ _ _ hy]
      cases hs : s p.city with
      | none => simp [orEmpty, hs, hy']
      | some ym => simp [orEmpty, hs, hy']
  · have hc' : ¬ p.city = c := fun h => hc h.symm
    simp only [monthPresent, insertRecord, updFn_other _ _ _ _ hc]
    simp [hc']

/-- Presence of a day under a city, year and month after one
insertion. -/
theorem dayPresent_insert (s : Store) (p : PRec) (c : String) (y m d : Nat) :
    dayPresent (insertRecord s p) c y m d = true ↔
      (p.city = c ∧ p.year = y ∧ p.month = m ∧ p.day = d) ∨
        dayPresent s c y m d = true := by
  by_cases hc : c = p.city
  · subst hc
    simp only [dayPresent, insertRecord, updFn_self]
    by_cases hy : y = p.year
    · subst hy
      simp only [updFn_self]
      by_cases hm : m = p.month
      · subst hm
        simp only [updFn_self]
        by_cases hd : d = p.day
        · subst hd
          simp [updFn_self]
        · have hd' : ¬ p.day = d := fun h => hd h.symm
          rw [updFn_other _ _ _ _ hd]
          cases hs : s p.city with
          | none => simp [orEmpty, hs, hd']
          | some ym =>
            cases hyy : ym p.year with
            | none => simp [orEmpty, hs, hyy, hd']
            | some mm =>
              cases hmm : mm p.month with
              | none => simp [orEmpty, hs, hyy, hmm, hd']
              | some dm => simp [orEmpty, hs, hyy, hmm, hd']
      · have hm' : ¬ p.month = m := fun h => hm h.symm
        rw [updFn_other _ _ _ _ hm]
        cases hs : s p.city with
        | none => simp [orEmpty, hs, hm']
        | some ym =>
          cases hyy : ym p.year with
          | none => simp [orEmpty, hs, hyy, hm']
          | some mm => simp [orEmpty, hs, hyy, hm']
    · have hy' : ¬ p.year = y := fun h => hy h.symm
      rw [updFn_other _ _ _ _ hy]
      cases hs : s p.city with
      | none => simp [orEmpty, hs, hy']
      | some ym => simp [orEmpty, hs, hy']
  · have hc' : ¬ p.city = c := fun h => hc h.symm
    simp only [dayPresent, insertRecord, updFn_other _ _ _ _ hc]
    simp [hc']

/-- A successfully parsed record carries the raw record's city, the
decomposed date, and the parsed temperature. -/
theorem parseRecord_ok_fields (r : RawRec) (p : PRec)
    (h : parseRecord r = .ok p) :
    p.city = r.city ∧ reDate r.date = some (p.year, p.month, p.day) ∧
      pyFloat r.temp = some p.temp := by
  unfold parseRecord at h
  cases hd : reDate r.date with
  | none => simp [hd] at h
  | some ymd =>
    obtain ⟨yy, mo, dd⟩ := ymd
    rw [hd] at h
    cases ht : pyFloat r.temp with
    | none => simp [ht] at h
    | some t =>
      rw [ht] at h
      simp only [Except.ok.injEq] at h
      subst h
      exact ⟨rfl, rfl, rfl⟩

/-- Construction characterisation, city level: a city key is present in
the built store iff some ingested record names it (or it was already
present in the starting store). -/
theorem initAux_cityPresent : ∀ (recs : List RawRec) (s store : Store),
    initAux s recs = .ok store → ∀ c : String,
      (cityPresent store c = true ↔
        (∃ r ∈ recs, r.city = c) ∨ cityPresent s c = true)
  | [], s, store, h, c => by
      simp only [initAux, Except.ok.injEq] at h
      subst h
      simp
  | r :: rs, s, store, h, c => by
      simp only [initAux] at h
      cases hp : parseRecord r with
      | error e => rw [hp] at h; cases h
      | ok p =>
          rw [hp] at h
          have ih := initAux_cityPresent rs (insertRecord s p) store h c
          have hf := parseRecord_ok_fields r p hp
          rw [ih, cityPresent_insert, hf.1]
          simp only [List.mem_cons]
          constructor
          · rintro (⟨r', hr', hc'⟩ | hc' | hsc)
            · exact Or.inl ⟨r', Or.inr hr', hc'⟩
            · exact Or.inl ⟨r, Or.inl rfl, hc'⟩
            · exact Or.inr hsc
          · rintro (⟨r', hre | hrm, hc'⟩ | hsc)
            · subst hre
              exact Or.inr (Or.inl hc')
            · exact Or.inl ⟨r', hrm, hc'⟩
            · exact Or.inr (Or.inr hsc)

/-- Construction characterisation, year level. -/
theorem initAux_yearPresent : ∀ (recs : List RawRec) (s store : Store),
    initAux s recs = .ok store → ∀ (c : String) (y : Nat),
      (yearPresent store c y = true ↔
        (∃ r ∈ recs, r.city = c ∧ ∃ mo dd, reDate r.date = some (y, mo, dd))
          ∨ yearPresent s c y = true)
  | [], s, store, h, c, y => by
      simp only [initAux, Except.ok.injEq] at h
      subst h
      simp
  | r :: rs, s, store, h, c, y => by
      simp only [initAux] at h
      cases hp : parseRecord r with
      | error e => rw [hp] at h; cases h
      | ok p =>
          rw [hp] at h
          have ih := initAux_yearPresent rs (insertRecord s p) store h c y
          have hf := parseRecord_ok_fields r p hp
          have hbr : (∃ mo dd, reDate r.date = some (y, mo, dd)) ↔
              p.year = y := by
            rw [hf.2.1]
            constructor
            · rintro ⟨mo, dd, hmd⟩
              simp only [Option.some.injEq, Prod.mk.injEq] at hmd
              exact hmd.1
            · intro hy
              exact ⟨p.month, p.day, by rw [hy]⟩
          rw [ih, yearPresent_insert, hf.1]
          simp only [List.mem_cons]
          constructor
          · rintro (⟨r', hr', hrc, hex⟩ | ⟨hrc, hpy⟩ | hs)
            · exact Or.inl ⟨r', Or.inr hr', hrc, hex⟩
            · exact Or.inl ⟨r, Or.inl rfl, hrc, hbr.mpr hpy⟩
            · exact Or.inr hs
          · rintro (⟨r', hre | hrm, hrc, hex⟩ | hs)
            · subst hre
              exact Or.inr (Or.inl ⟨hrc, hbr.mp hex⟩)
            · exact Or.inl ⟨r', hrm, hrc, hex⟩
            · exact Or.inr (Or.inr hs)

/-- Construction characterisation, month level. -/
theorem initAux_monthPresent : ∀ (recs : List RawRec) (s store : Store),
    initAux s recs = .ok store → ∀ (c : String) (y m : Nat),
      (monthPresent store c y m = true ↔
        (∃ r ∈ recs, r.city = c ∧ ∃ dd, reDate r.date = some (y, m, dd))
          ∨ monthPresent s c y m = true)
  | [], s, store, h, c, y, m => by
      simp only [initAux, Except.ok.injEq] at h
      subst h
      simp
  | r :: rs, s, store, h, c, y, m => by
      simp only [initAux] at h
      cases hp : parseRecord r with
      | error e => rw [hp] at h; cases h
      | ok p =>
          rw [hp] at h
          have ih := initAux_monthPresent rs (insertRecord s p) store h c y m
          have hf := parseRecord_ok_fields r p hp
          have hbr : (∃ dd, reDate r.date = some (y, m, dd)) ↔
              (p.year = y ∧ p.month = m) := by
            rw [hf.2.1]
            constructor
            · rintro ⟨dd, hmd⟩
              simp only [Option.some.injEq, Prod.mk.injEq] at hmd
              exact ⟨hmd.1, hmd.2.1⟩
            · rintro ⟨h1, h2⟩
              exact ⟨p.day, by rw [h1, h2]⟩
          rw [ih, monthPresent_insert, hf.1]
          simp only [List.mem_cons]
          constructor
          · rintro (⟨r', hr', hrc, hex⟩ | ⟨hrc, hpy, hpm⟩ | hs)
            · exact Or.inl ⟨r', Or.inr hr', hrc, hex⟩
            · exact Or.inl ⟨r, Or.inl rfl, hrc, hbr.mpr ⟨hpy, hpm⟩⟩
            · exact Or.inr hs
          · rintro (⟨r', hre | hrm, hrc, hex⟩ | hs)
            · subst hre
              exact Or.inr (Or.inl ⟨hrc, (hbr.mp hex).1, (hbr.mp hex).2⟩)
            · exact Or.inl ⟨r', hrm, hrc, hex⟩
            · exact Or.inr (Or.inr hs)

/-- Construction characterisation, day level. -/
theorem initAux_dayPresent : ∀ (recs : List RawRec) (s store : Store),
    initAux s recs = .ok store → ∀ (c : String) (y m d : Nat),
      (dayPresent store c y m d = true ↔
        (∃ r ∈ recs, r.city = c ∧ reDate r.date = some (y, m, d))
          ∨ dayPresent s c y m d = true)
  | [], s, store, h, c, y, m, d => by
      simp only [initAux, Except.ok.injEq] at h
      subst h
      simp
  | r :: rs, s, store, h, c, y, m, d => by
      simp only [initAux] at h
      cases hp : parseRecord r with
      | error e => rw [hp] at h; cases h
      | ok p =>
          rw [hp] at h
          have ih := initAux_dayPresent rs (insertRecord s p) store h c y m d
          have hf := parseRecord_ok_fields r p hp
          have hbr : reDate r.date = some (y, m, d) ↔
              (p.year = y ∧ p.month = m ∧ p.day = d) := by
            rw [hf.2.1]
            simp only [Option.some.injEq, Prod.mk.injEq]
          rw [ih, dayPresent_insert, hf.1]
          simp only [List.mem_cons]
          constructor
          · rintro (⟨r', hr', hrc, hex⟩ | ⟨hrc, hpy, hpm, hpd⟩ | hs)
            · exact Or.inl ⟨r', Or.inr hr', hrc, hex⟩
            · exact Or.inl ⟨r, Or.inl rfl, hrc, hbr.mpr ⟨hpy, hpm, hpd⟩⟩
            · exact Or.inr hs
          · rintro (⟨r', hre | hrm, hrc, hex⟩ | hs)
            · subst hre
              refine Or.inr (Or.inl ⟨hrc, ?_, ?_, ?_⟩)
              · exact (hbr.mp hex).1
              · exact (hbr.mp hex).2.1
              · exact (hbr.mp hex).2.2
            · exact Or.inl ⟨r', hrm, hrc, hex⟩
            · exact Or.inr (Or.inr hs)

/-- A successful construction parsed every ingested record. -/
theorem initAux_ok_parses : ∀ (recs : List RawRec) (s store : Store),
    initAux s recs = .ok store → ∀ r ∈ recs, ∃ p, parseRecord r = .ok p
  | [], _, _, _, r, hr => absurd hr (List.not_mem_nil r)
  | r' :: rs, s, store, h, r, hr => by
      simp only [initAux] at h
      cases hp : parseRecord r' with
      | error e => rw [hp] at h; cases h
      | ok p =>
          rw [hp] at h
          rcases List.mem_cons.mp hr with hre | hrm
          · subst hre
            exact ⟨p, hp⟩
          · exact initAux_ok_parses rs _ store h r hrm

/-- C10: in every store produced by a successful construction, a city
key is present iff some ingested record names that city, a year key
under a city iff some record for that city decomposes to that year, a
month key iff some record for that city and year has that month, and a
day key iff some record has the full date; consequently no intermediate
mapping is empty.  The query operations are pure functions of the store
and cannot add or remove keys. -/
theorem climate_init_level_presence (recs : List RawRec) (store : Store)
    (hok : Climate.init recs = .ok store) (c : String) (y m d : Nat) :
    (cityPresent store c = true ↔ ∃ r ∈ recs, r.city = c) ∧
    (yearPresent store c y = true ↔
      ∃ r ∈ recs, r.city = c ∧ ∃ mo dd, reDate r.date = some (y, mo, dd)) ∧
    (monthPresent store c y m = true ↔
      ∃ r ∈ recs, r.city = c ∧ ∃ dd, reDate r.date = some (y, m, dd)) ∧
    (dayPresent store c y m d = true ↔
      ∃ r ∈ recs, r.city = c ∧ reDate r.date = some (y, m, d)) ∧
    (cityPresent store c = true → ∃ y', yearPresent store c y' = true) ∧
    (yearPresent store c y = true → ∃ m', monthPresent store c y m' = true) ∧
    (monthPresent store c y m = true →
      ∃ d', dayPresent store c y m d' = true) := by
  have hcity : cityPresent store c = true ↔ ∃ r ∈ recs, r.city = c := by
    rw [initAux_cityPresent recs emptyStore store hok c]
    simp [cityPresent, emptyStore]
  have hyear : ∀ yy, yearPresent store c yy = true ↔
      ∃ r ∈ recs, r.city = c ∧ ∃ mo dd, reDate r.date = some (yy, mo, dd) := by
    intro yy
    rw [initAux_yearPresent recs emptyStore store hok c yy]
    simp [yearPresent, emptyStore]
  have hmonth : ∀ yy mm, monthPresent store c yy mm = true ↔
      ∃ r ∈ recs, r.city = c ∧ ∃ dd, reDate r.date = some (yy, mm, dd) := by
    intro yy mm
    rw [initAux_monthPresent recs emptyStore store hok c yy mm]
    simp [monthPresent, emptyStore]
  have hday : ∀ yy mm dd, dayPresent store c yy mm dd = true ↔
      ∃ r ∈ recs, r.city = c ∧ reDate r.date = some (yy, mm, dd) := by
    intro yy mm dd
    rw [initAux_dayPresent recs emptyStore store hok c yy mm dd]
    simp [dayPresent, emptyStore]
  refine ⟨hcity, hyear y, hmonth y m, hday y m d, ?_, ?_, ?_⟩
  · intro hcp
    obtain ⟨r, hrm, hrc⟩ := hcity.mp hcp
    obtain ⟨p, hp⟩ := initAux_ok_parses recs emptyStore store hok r hrm
    have hf := parseRecord_ok_fields r p hp
    exact ⟨p.year, (hyear p.year).mpr ⟨r, hrm, hrc, p.month, p.day, hf.2.1⟩⟩
  · intro hyp
    obtain ⟨r, hrm, hrc, mo, dd, hdate⟩ := (hyear y).mp hyp
    exact ⟨mo, (hmonth y mo).mpr ⟨r, hrm, hrc, dd, hdate⟩⟩
  · intro hmp
    obtain ⟨r, hrm, hrc, dd, hdate⟩ := (hmonth y m).mp hmp
    exact ⟨dd, (hday y m dd).mpr ⟨r, hrm, hrc, hdate⟩⟩

/-- Witness for C10 at a concrete one-record ingestion. -/
theorem climate_init_level_presence_witness :
    dayPresent (buildStore [⟨"B", 2000, 1, 2, .inf⟩]) "B" 2000 1 2 = true ∧
    (∃ d', dayPresent (buildStore [⟨"B", 2000, 1, 2, .inf⟩])
      "B" 2000 1 d' = true) := by
  have h := climate_init_level_presence
      [⟨"20000102".toList, "B", "inf".toList⟩]
      (buildStore [⟨"B", 2000, 1, 2, .inf⟩]) rfl "B" 2000 1 2
  refine ⟨?_, ?_⟩
  · exact (h.2.2.2.1).mpr ⟨⟨"20000102".toList, "B", "inf".toList⟩,
      by simp, rfl, by decide⟩
  · exact h.2.2.2.2.2.2 ((h.2.2.1).mpr ⟨⟨"20000102".toList, "B", "inf".toList⟩,
      by simp, rfl, 2, by decide⟩)

/-- The value of a successful month-collection loop: the months'
recorded temperatures concatenated in month order. -/
theorem collectMonths_ok (mm : MonthMap) : ∀ (ms : List Nat) (ts : List PyVal),
    collectMonths mm ms = .ok ts →
    ts = ms.flatMap (fun m => match mm m with
      | none => []
      | some dm => monthTemps dm)
  | [], ts, h => by
      simp only [collectMonths, Except.ok.injEq] at h
      subst h
      rfl
  | m :: ms, ts, h => by
      simp only [collectMonths] at h
      cases hm : mm m with
      | none => rw [hm] at h; cases h
      | some dm =>
          rw [hm] at h
          cases hr : collectMonths mm ms with
          | error e =>
              rw [hr] at h
              simp [bind, Except.bind] at h
          | ok rest =>
              rw [hr] at h
              simp only [bind, Except.bind, pure, Except.pure,
                Except.ok.injEq] at h
              have ih := collectMonths_ok mm ms rest hr
              rw [← h, ih, List.flatMap_cons, hm]

/-- A `filterMap` only consumes the entries it keeps. -/
theorem filterMap_eq_filter_isSome {α β : Type} (f : α → Option β) :
    ∀ l : List α, l.filterMap f = (l.filter fun a => (f a).isSome).filterMap f
  | [] => rfl
  | a :: l => by
      cases hf : f a with
      | none =>
          simp [List.filterMap_cons, List.filter_cons, hf,
            filterMap_eq_filter_isSome f l]
      | some b =>
          simp [List.filterMap_cons, List.filter_cons, hf,
            filterMap_eq_filter_isSome f l]

/-- Length of a `filterMap` is the number of kept entries. -/
theorem length_filterMap_eq_length_filter {α β : Type} (f : α → Option β) :
    ∀ l : List α,
      (l.filterMap f).length = (l.filter fun a => (f a).isSome).length
  | [] => rfl
  | a :: l => by
      cases hf : f a with
      | none =>
          simp [List.filterMap_cons, List.filter_cons, hf,
            length_filterMap_eq_length_filter f l]
      | some b =>
          simp [List.filterMap_cons, List.filter_cons, hf,
            length_filterMap_eq_length_filter f l]

/-- One month's collected temperatures, re-read through the recorded
(month, day) pairs of that month. -/
theorem monthTemps_eq_filterMap_pairs (mm : MonthMap) (m : Nat) (dm : DayMap)
    (hm : mm m = some dm) :
    monthTemps dm =
      ((daysList.filter fun d => (dm d).isSome).map (fun d => (m, d))).filterMap
        (fun p => (mm p.1).bind fun dm' => dm' p.2) := by
  rw [List.filterMap_map]
  have hfun : ((fun p : Nat × Nat => (mm p.1).bind fun dm' => dm' p.2) ∘
      (fun d => (m, d))) = fun d => dm d := by
    funext d2
    simp [hm]
  rw [hfun]
  exact filterMap_eq_filter_isSome dm daysList

/-- The concatenated month temperatures are exactly the temperatures
read at the recorded (month, day) pairs, in order. -/
theorem flatMap_temps_eq (mm : MonthMap) : ∀ ms : List Nat,
    (ms.flatMap fun m => match mm m with
      | none => []
      | some dm => monthTemps dm) =
      (recordedDaysIn mm ms).filterMap
        (fun p => (mm p.1).bind fun dm => dm p.2)
  | [] => rfl
  | m :: ms => by
      rw [List.flatMap_cons]
      unfold recordedDaysIn
      rw [List.flatMap_cons, List.filterMap_append]
      have ih := flatMap_temps_eq mm ms
      unfold recordedDaysIn at ih
      rw [← ih]
      cases hm : mm m with
      | none => simp
      | some dm =>
          simp only
          rw [monthTemps_eq_filterMap_pairs mm m dm hm]

/-- The number of collected temperatures equals the number of recorded
(month, day) pairs. -/
theorem flatMap_temps_length (mm : MonthMap) : ∀ ms : List Nat,
    (ms.flatMap fun m => match mm m with
      | none => []
      | some dm => monthTemps dm).length =
      (recordedDaysIn mm ms).length
  | [] => rfl
  | m :: ms => by
      rw [List.flatMap_cons]
      unfold recordedDaysIn
      rw [List.flatMap_cons]
      have ih := flatMap_temps_length mm ms
      unfold recordedDaysIn at ih
      simp only [List.length_append, ih]
      cases hm : mm m with
      | none => simp
      | some dm =>
          simp only [List.length_map, monthTemps]
          rw [length_filterMap_eq_length_filter]

/-- The first components of the recorded pairs come from the month
list. -/
theorem mem_recordedDaysIn_fst (mm : MonthMap) (ms : List Nat)
    (p : Nat × Nat) (hp : p ∈ recordedDaysIn mm ms) : p.1 ∈ ms := by
  unfold recordedDaysIn at hp
  rw [List.mem_flatMap] at hp
  obtain ⟨m, hm, hpin⟩ := hp
  cases hmm : mm m with
  | none => rw [hmm] at hpin; cases hpin
  | some dm =>
      rw [hmm] at hpin
      rw [List.mem_map] at hpin
      obtain ⟨d2, _, hd⟩ := hpin
      rw [← hd]
      exact hm

/-- The day numbers iterated by the inner loop are strictly
increasing. -/
theorem daysList_pairwise : daysList.Pairwise (· < ·) :=
  (List.pairwise_lt_range 31).map _ (fun _ _ hab => by omega)

/-- The month numbers iterated by the outer loop are strictly
increasing. -/
theorem monthsList_pairwise : monthsList.Pairwise (· < ·) :=
  (List.pairwise_lt_range 12).map _ (fun _ _ hab => by omega)

/-- The recorded (month, day) pairs are strictly increasing in calendar
order. -/
theorem recordedDaysIn_pairwise (mm : MonthMap) :
    ∀ ms : List Nat, ms.Pairwise (· < ·) →
      (recordedDaysIn mm ms).Pairwise calLt
  | [], _ => List.Pairwise.nil
  | m :: ms, h => by
      rw [List.pairwise_cons] at h
      unfold recordedDaysIn
      rw [List.flatMap_cons, List.pairwise_append]
      refine ⟨?_, ?_, ?_⟩
      · cases hmm : mm m with
        | none => exact List.Pairwise.nil
        | some dm =>
            exact ((daysList_pairwise.filter _).map _
              (fun a b hab => Or.inr ⟨rfl, hab⟩))
      · exact recordedDaysIn_pairwise mm ms h.2
      · intro p hp q hq
        have hq1 : q.1 ∈ ms := mem_recordedDaysIn_fst mm ms q hq
        cases hmm : mm m with
        | none => rw [hmm] at hp; cases hp
        | some dm =>
            rw [hmm] at hp
            rw [List.mem_map] at hp
            obtain ⟨d2, _, hd⟩ := hp
            rw [← hd]
            exact Or.inl (h.1 q.1 hq1)

/-- Calendar order is irreflexive, so the recorded pairs are distinct. -/
theorem recordedDaysIn_nodup (mm : MonthMap) (ms : List Nat)
    (h : ms.Pairwise (· < ·)) : (recordedDaysIn mm ms).Nodup :=
  (recordedDaysIn_pairwise mm ms h).imp (fun hab => by
    intro he
    subst he
    rcases hab with hq | ⟨_, hq⟩ <;> exact absurd hq (lt_irrefl _))

/-- C4: whenever `get_yearly_temp` returns, the returned sequence is
exactly the temperatures at the recorded (month, day) pairs of that
city and year, in calendar order (month ascending, then day ascending),
and its length is the number of distinct recorded (month, day) pairs. -/
theorem get_yearly_temp_calendar_order (s : Store) (c : String) (y : Nat)
    (ts : List PyVal) (h : get_yearly_temp s c y = .ok ts) :
    ∃ ym mm, s c = some ym ∧ ym y = some mm ∧
      ts = (recordedDays mm).filterMap
        (fun p => (mm p.1).bind fun dm => dm p.2) ∧
      ts.length = (recordedDays mm).length ∧
      (recordedDays mm).Pairwise calLt ∧
      (recordedDays mm).Nodup := by
  unfold get_yearly_temp at h
  cases hs : s c with
  | none =>
    rw [hs] at h
    change Except.error ClimErr.unknownCity = Except.ok ts at h
    exact Except.noConfusion h
  | some ym =>
    rw [hs] at h
    change (match ym y with
      | none => Except.error ClimErr.unknownYear
      | some mm => collectMonths mm monthsList) = Except.ok ts at h
    cases hy : ym y with
    | none =>
      rw [hy] at h
      change Except.error ClimErr.unknownYear = Except.ok ts at h
      exact Except.noConfusion h
    | some mm =>
      rw [hy] at h
      change collectMonths mm monthsList = Except.ok ts at h
      have hcol := collectMonths_ok mm monthsList ts h
      refine ⟨ym, mm, rfl, hy, ?_, ?_, ?_, ?_⟩
      · rw [hcol]
        exact flatMap_temps_eq mm monthsList
      · rw [hcol]
        exact flatMap_temps_length mm monthsList
      · exact recordedDaysIn_pairwise mm monthsList monthsList_pairwise
      · exact recordedDaysIn_nodup mm monthsList monthsList_pairwise

/-- Witness for C4 on a store with one record in each of the twelve
months. -/
theorem get_yearly_temp_calendar_order_witness :
    (List.replicate 12 (PyVal.finite 1)).length =
      (recordedDays (orEmpty ((orEmpty ((buildStore ((List.range 12).map
        (fun k => ⟨"B", 2000, k + 1, 1, PyVal.finite 1⟩))) "B")) 2000))).length
      := by
  obtain ⟨ym, mm, h1, h2, hts, hlen, hpw, hnd⟩ :=
    get_yearly_temp_calendar_order
      (buildStore ((List.range 12).map
        (fun k => ⟨"B", 2000, k + 1, 1, PyVal.finite 1⟩)))
      "B" 2000 (List.replicate 12 (.finite 1)) (by decide)
  have hym : orEmpty ((buildStore ((List.range 12).map
      (fun k => (⟨"B", 2000, k + 1, 1, PyVal.finite 1⟩ : PRec)))) "B") = ym := by
    rw [h1]
    rfl
  have hmm : orEmpty (ym 2000) = mm := by
    rw [h2]
    rfl
  rw [hym, hmm]
  exact hlen

/-- Invariant of the evaluation loop: when the loop returns, the i-th
plotted estimates come from the i-th model, and the i-th displayed
score is the R-squared of the most recent length-2 model up to
position i, starting from a coherent carried `r_sqr` binding. -/
theorem evalLoop_ok_spec (x y : List ℚ) :
    ∀ (ms : List (List ℚ)) (acc : Option (List ℚ)) (r : Option PyVal),
      (match acc, r with
        | none, none => True
        | some ml, some rv => r_squared y (polyval ml x) = .ok rv
        | _, _ => False) →
      ∀ out, evalLoop x y ms r = .ok out →
        out.length = ms.length ∧
        ∀ i (hi : i < ms.length) (hi' : i < out.length),
          (out.get ⟨i, hi'⟩).1 = polyval (ms.get ⟨i, hi⟩) x ∧
          ∃ mlast, lastLinAux acc (ms.take (i + 1)) = some mlast ∧
            r_squared y (polyval mlast x) = .ok (out.get ⟨i, hi'⟩).2
  | [], acc, r, hco, out, hout => by
      simp only [evalLoop, Except.ok.injEq] at hout
      subst hout
      exact ⟨rfl, fun i hi => absurd hi (Nat.not_lt_zero i)⟩
  | m :: ms, acc, r, hco, out, hout => by
      simp only [evalLoop] at hout
      by_cases h2 : m.length = 2
      · rw [if_pos h2] at hout
        cases hrq : r_squared y (polyval m x) with
        | error e =>
            rw [hrq] at hout
            simp [bind, Except.bind] at hout
        | ok v =>
            rw [hrq] at hout
            simp only [bind, Except.bind, pure, Except.pure] at hout
            cases hrest : evalLoop x y ms (some v) with
            | error e =>
                rw [hrest] at hout
                simp at hout
            | ok rest =>
                rw [hrest] at hout
                simp only [Except.ok.injEq] at hout
                subst hout
                have ih := evalLoop_ok_spec x y ms (some m) (some v)
                  (by simpa using hrq) rest hrest
                refine ⟨by simp [ih.1], ?_⟩
                intro i hi hi'
                cases i with
                | zero =>
                    refine ⟨rfl, m, ?_, ?_⟩
                    · simp [lastLinAux, h2]
                    · exact hrq
                | succ j =>
                    have hj : j < ms.length := by
                      simpa using hi
                    have hj' : j < rest.length := by
                      simpa using hi'
                    have step := ih.2 j hj hj'
                    refine ⟨step.1, ?_⟩
                    obtain ⟨mlast, hml, hmr⟩ := step.2
                    refine ⟨mlast, ?_, hmr⟩
                    rw [List.take_succ_cons]
                    simpa [lastLinAux, h2] using hml
      · rw [if_neg h2] at hout
        cases r with
        | none =>
            simp [bind, Except.bind, pure, Except.pure] at hout
        | some rv =>
            cases acc with
            | none => exact absurd hco (by simp)
            | some ml =>
                simp only [bind, Except.bind, pure, Except.pure] at hout
                cases hrest : evalLoop x y ms (some rv) with
                | error e =>
                    rw [hrest] at hout
                    simp at hout
                | ok rest =>
                    rw [hrest] at hout
                    simp only [Except.ok.injEq] at hout
                    subst hout
                    have hco' : r_squared y (polyval ml x) = .ok rv := by
                      simpa using hco
                    have ih := evalLoop_ok_spec x y ms (some ml) (some rv)
                      (by simpa using hco') rest hrest
                    refine ⟨by simp [ih.1], ?_⟩
                    intro i hi hi'
                    cases i with
                    | zero =>
                        refine ⟨rfl, ml, ?_, hco'⟩
                        simp [lastLinAux, h2]
                    | succ j =>
                        have hj : j < ms.length := by
                          simpa using hi
                        have hj' : j < rest.length := by
                          simpa using hi'
                        have step := ih.2 j hj hj'
                        refine ⟨step.1, ?_⟩
                        obtain ⟨mlast, hml, hmr⟩ := step.2
                        refine ⟨mlast, ?_, hmr⟩
                        rw [List.take_succ_cons]
                        simpa [lastLinAux, h2] using hml

/-- C6 counterexample: when the first model is not of length 2, no
R-squared is computed or passed through at all: the evaluation fails
with `NameError` (the title reads the never-assigned `r_sqr`). -/
theorem evaluate_models_nonlinear_first_nameError :
    evaluate_models_on_training [0, 1] [0, 1] [[1, 0, 0]]
      = .error .nameError := by
  decide

/-- C6 amended: a new R-squared is computed only for length-2 models;
the score displayed for any other model is the R-squared of the most
recent preceding length-2 model, and when no length-2 model precedes,
the evaluation fails with `NameError`. -/
theorem evaluate_models_scores_from_last_linear (x y : List ℚ)
    (models : List (List ℚ)) :
    (∀ out, evaluate_models_on_training x y models = .ok out →
      out.length = models.length ∧
      ∀ i (hi : i < models.length) (hi' : i < out.length),
        (out.get ⟨i, hi'⟩).1 = polyval (models.get ⟨i, hi⟩) x ∧
        ∃ mlast, lastLinAux none (models.take (i + 1)) = some mlast ∧
          r_squared y (polyval mlast x) = .ok (out.get ⟨i, hi'⟩).2) ∧
    (∀ m ms, models = m :: ms → ¬ m.length = 2 →
      evaluate_models_on_training x y models = .error .nameError) := by
  constructor
  · intro out hout
    exact evalLoop_ok_spec x y models none none trivial out hout
  · rintro m ms rfl h2
    show evalLoop x y (m :: ms) none = .error .nameError
    simp [evalLoop, h2, bind, Except.bind, pure, Except.pure]

/-- Witness for the amended C6: a linear model followed by a quadratic
model; the quadratic model's title reuses the linear model's score. -/
theorem evaluate_models_scores_from_last_linear_witness :
    lastLinAux none ([[(1 : ℚ), 0], [1, 0, 0]].take 2) = some [1, 0] ∧
    r_squared [0, 1] (polyval [1, 0] [0, 1]) = .ok (.finite 1) := by
  have hok : evaluate_models_on_training [0, 1] [0, 1] [[1, 0], [1, 0, 0]]
      = .ok [([0, 1], .finite 1), ([0, 1], .finite 1)] := by
    simp [evaluate_models_on_training, evalLoop, polyval, horner, r_squared,
      sse, npVar, pvar, listMean, npDivF, pySub1, bind, Except.bind, pure,
      Except.pure]
    norm_num
  have h := ((evaluate_models_scores_from_last_linear [0, 1] [0, 1]
      [[1, 0], [1, 0, 0]]).1 [([0, 1], .finite 1), ([0, 1], .finite 1)] hok).2
      1 (by norm_num) (by norm_num)
  obtain ⟨hfst, mlast, hlin, hr⟩ := h
  have hl2 : lastLinAux none ([[(1 : ℚ), 0], [1, 0, 0]].take 2)
      = some [1, 0] := by decide
  refine ⟨hl2, ?_⟩
  have hml : [1, 0] = mlast := by
    injection hl2.symm.trans hlin
  rw [hml]
  exact hr
